import Mathlib

/-!
Verification of the cobraman man-page generator (src/man/man.go) against its
natural-language specification.  The Go source is shallowly embedded below:
pure helpers become Lean functions, the recursive tree walker becomes a
state-passing function over an explicit file-system model, and the external
collaborators (the cobra command tree, the pflag flag sets, the text/template
engine, the clock and the file system) are modelled as data / function
parameters, exactly as the spec describes them ("the core only consumes a
read-only view" of the tree).
-/

namespace Cobraman

/-- Embedding of a pflag.Flag as consumed by man.go: name, optional
single-character shorthand, default value, usage text, NoOptDefVal marker,
deprecation markers for the flag and its shorthand, and the hidden marker. -/
structure Flag where
  name : String
  shorthand : String
  defValue : String
  usage : String
  noOptDefVal : String
  deprecated : String
  shorthandDeprecated : String
  hidden : Bool
deriving Repr, DecidableEq

/-- Embedding of the read-only view of a cobra.Command consumed by man.go.
The collaborator exposes, per node: Name, Short, Long, Example, the
Annotations map (as an association list), the flag set returned by Flags(),
the flag set returned by NonInheritedFlags(), UseLine(), the
IsAvailableCommand() and IsAdditionalHelpTopicCommand() predicates, and the
ordered child list returned by Commands(). -/
inductive Cmd where
  | mk (name short long exampleText : String)
       (annots : List (String × String))
       (flags nonInheritedFlags : List Flag)
       (useLine : String)
       (available helpTopic : Bool)
       (children : List Cmd)

def Cmd.name : Cmd → String
  | .mk n _ _ _ _ _ _ _ _ _ _ => n

def Cmd.short : Cmd → String
  | .mk _ s _ _ _ _ _ _ _ _ _ => s

def Cmd.long : Cmd → String
  | .mk _ _ l _ _ _ _ _ _ _ _ => l

def Cmd.exampleText : Cmd → String
  | .mk _ _ _ e _ _ _ _ _ _ _ => e

def Cmd.annots : Cmd → List (String × String)
  | .mk _ _ _ _ a _ _ _ _ _ _ => a

def Cmd.flags : Cmd → List Flag
  | .mk _ _ _ _ _ f _ _ _ _ _ => f

def Cmd.nonInheritedFlags : Cmd → List Flag
  | .mk _ _ _ _ _ _ f _ _ _ _ => f

def Cmd.useLine : Cmd → String
  | .mk _ _ _ _ _ _ _ u _ _ _ => u

def Cmd.available : Cmd → Bool
  | .mk _ _ _ _ _ _ _ _ a _ _ => a

def Cmd.helpTopic : Cmd → Bool
  | .mk _ _ _ _ _ _ _ _ _ h _ => h

def Cmd.children : Cmd → List Cmd
  | .mk _ _ _ _ _ _ _ _ _ _ c => c

/-- Go map access cmd.Annotations[key]: yields the empty string when the key
is absent (Go's zero value). -/
def lookupAnnot (c : Cmd) (key : String) : String :=
  (c.annots.lookup key).getD ""

/-- Embedding of the GenerateManOptions struct.  The Go field Section is
called manSection here because section is reserved in Lean; the Date field
(a *time.Time formatted later as "Jan 2006") is modelled as the already
formatted optional month-year string, since only that formatted form is ever
consumed. -/
structure GenerateManOptions where
  programName : String
  manSection : String
  centerFooter : String
  date : Option String
  leftFooter : String
  centerHeader : String
  files : String
  bugs : String
  environment : String
  author : String
  directory : String
  commandSeparator : String
  genSeprateInheritedFlags : Bool
  useTemplate : String
deriving Repr, DecidableEq

/-- Embedding of the manStruct record filled by generateManPage.  Field names
are lowercased; Section is manSection (reserved word). -/
structure ManStruct where
  programName : String
  manSection : String
  centerFooter : String
  leftFooter : String
  centerHeader : String
  name : String
  useLine : String
  commandPath : String
  description : String
  synFlags : String
  hasFlags : Bool
  flags : String
  hasInheritedFlags : Bool
  inheritedFlags : String
  hasSeeAlso : Bool
  seeAlsos : String
  hasAuthor : Bool
  author : String
  hasEnvironment : Bool
  environment : String
  hasFiles : Bool
  files : String
  hasBugs : Bool
  bugs : String
  hasExamples : Bool
  examples : String
deriving Repr, DecidableEq

/-- The Go zero value of manStruct: every string empty, every boolean false
(values := manStruct\x7b\x7d in generateManPage). -/
def emptyManStruct : ManStruct where
  programName := ""
  manSection := ""
  centerFooter := ""
  leftFooter := ""
  centerHeader := ""
  name := ""
  useLine := ""
  commandPath := ""
  description := ""
  synFlags := ""
  hasFlags := false
  flags := ""
  hasInheritedFlags := false
  inheritedFlags := ""
  hasSeeAlso := false
  seeAlsos := ""
  hasAuthor := false
  author := ""
  hasEnvironment := false
  environment := ""
  hasFiles := false
  files := ""
  hasBugs := false
  bugs := ""
  hasExamples := false
  examples := ""

/-- Executable core of stringsReplace: scans left to right, replacing each
non-overlapping occurrence of old; the fuel argument (instantiated with the
length of the scanned text) only serves to make the recursion structural. -/
def replaceFuel (old new : List Char) : Nat → List Char → List Char
  | 0, s => s
  | _ + 1, [] => []
  | fuel + 1, c :: rest =>
    if old.isPrefixOf (c :: rest) then
      new ++ replaceFuel old new fuel ((c :: rest).drop old.length)
    else c :: replaceFuel old new fuel rest

/-- Model of Go strings.Replace(s, old, new, -1) for a non-empty pattern:
every occurrence of old is replaced by new, scanning left to right.  (man.go
only ever calls it with the non-empty patterns " " and "\n\n".) -/
def stringsReplace (s old new : String) : String :=
  if old.toList.isEmpty then s
  else String.mk (replaceFuel old.toList new.toList s.toList.length s.toList)

/-- Lexicographic comparison of character lists by code point, the order Go
uses for strings. -/
def lexLe : List Char → List Char → Bool
  | [], _ => true
  | _ :: _, [] => false
  | a :: as, b :: bs =>
    if a.toNat < b.toNat then true else if b.toNat < a.toNat then false else lexLe as bs

/-- Go string comparison a <= b. -/
def strLe (a b : String) : Bool := lexLe a.toList b.toList

/-- Modelled from the spec: the backslashify helper is code of this
repository that is not under src/ (man.go calls it but does not define it).
Per spec 4.4 it performs "the minimal escaping required by the target markup
(escape the control/backslash characters that have special meaning)": each
troff-special character is prefixed with a backslash. -/
def backslashify (s : String) : String :=
  String.join (s.toList.map (fun c =>
    if c = '\\' ∨ c = '-' ∨ c = '_' ∨ c = '&' ∨ c = '~' then
      String.mk [ '\\', c]
    else String.mk [c]))

/-- Whether the first character of the text is the markup control character. -/
def startsWithDot (s : String) : Bool :=
  match s.toList with
  | c :: _ => c == '.'
  | [] => false

/-- Modelled from the spec: the simpleToTroff sanitizer is code of this
repository that is not under src/.  Per spec 4.4 and the comments in man.go:
if the text starts with the markup control character (a dot) it is assumed to
be valid troff and passed through unchanged; otherwise it is escaped and the
blank-line paragraph breaks are converted to troff paragraph markup. -/
def simpleToTroff (s : String) : String :=
  if startsWithDot s then s
  else stringsReplace (backslashify s) "\n\n" "\n.PP\n"

/-- Model of Go strings.TrimRight(str, " \n"): removes trailing spaces and
newlines. -/
def trimRightSpaceNl (s : String) : String :=
  String.mk ((s.toList.reverse.dropWhile (fun c => c = ' ' || c = '\n')).reverse)

/-- One iteration of the pflag.FlagSet.VisitAll callback in printSynFlags
(man.go lines 330-339): skipped flags contribute the empty string. -/
def synFlagEntry (f : Flag) : String :=
  if 0 < f.deprecated.length ∨ f.hidden then ""
  else if 0 < f.shorthand.length ∧ f.shorthandDeprecated.length = 0 then
    ".RB [ \\-" ++ f.shorthand ++ " ]\n"
  else
    ".RB [ \\-\\-" ++ backslashify f.name ++ " ]\n"

/-- printSynFlags (man.go lines 329-340): the buffer accumulates the entry of
every flag visited by VisitAll, in the order the flag-set collaborator
provides them. -/
def printSynFlags (flags : List Flag) : String :=
  flags.foldl (fun buf f => buf ++ synFlagEntry f) ""

/-- One iteration of the VisitAll callback in printFlags (man.go lines
343-363), transcribing the format-string assembly: a .TP block with the
short+long or long-only flag form, the bracketed-or-not value placeholder,
the escaped default value and the escaped usage, right-trimmed. -/
def flagEntry (f : Flag) : String :=
  if 0 < f.deprecated.length ∨ f.hidden then ""
  else
    let core :=
      if 0 < f.shorthand.length ∧ f.shorthandDeprecated.length = 0 then
        "\\fB\\-" ++ f.shorthand ++ "\\fP, \\fB\\-\\-" ++ backslashify f.name ++ "\\fP"
      else
        "\\fB\\-\\-" ++ backslashify f.name ++ "\\fP"
    let lb := if 0 < f.noOptDefVal.length then "[" else ""
    let rb := if 0 < f.noOptDefVal.length then "]" else ""
    trimRightSpaceNl (".TP\n" ++ core ++ lb ++ "=\\fI" ++ backslashify f.defValue
      ++ "\\fR" ++ rb ++ "\n" ++ backslashify f.usage ++ "\n")

/-- printFlags (man.go lines 342-364). -/
def printFlags (flags : List Flag) : String :=
  flags.foldl (fun buf f => buf ++ flagEntry f) ""

/-- Modelled from the spec: the byName sort.Interface is code of this
repository that is not under src/; per spec 4.3 it orders commands
alphabetically by name.  sort.Sort is modelled as a by-name sort of the
read-only child list (the embedding treats the command tree as immutable, as
the spec's collaborator contract states; outputs proven below depend only on
the sorted name sequence, which any by-name sort produces). -/
def leName (a b : Cmd) : Prop := strLe a.name b.name = true

instance : DecidableRel leName := fun a b =>
  instDecidableEqBool (strLe a.name b.name) true

def byName (l : List Cmd) : List Cmd := List.insertionSort leName l

/-- generateSeeAlso (man.go lines 366-401).  The cobra collaborator calls
are passed in: parent is none when cmd.HasParent() is false, and otherwise
carries the parent's CommandPath() and Commands(); cmdPath is
cmd.CommandPath(). -/
def generateSeeAlso (parent : Option (String × List Cmd)) (c : Cmd)
    (cmdPath : String) (sec : String) : Bool × String :=
  let start : Bool × List String :=
    match parent with
    | none => (false, [])
    | some (parentPath, sibs) =>
      let dashParentPath := stringsReplace parentPath " " "\\-"
      let first := ".BR " ++ dashParentPath ++ " (" ++ sec ++ ")"
      let entries := ((byName sibs).filter
          (fun s => s.available && !s.helpTopic && !(s.name == c.name))).map
        (fun s => ".BR " ++ dashParentPath ++ "\\-" ++ s.name ++ " (" ++ sec ++ ")")
      (true, first :: entries)
  let dashCommandName := stringsReplace cmdPath " " "\\-"
  let kids := (byName c.children).filter (fun k => k.available && !k.helpTopic)
  let kidEntries := kids.map
    (fun k => ".BR " ++ dashCommandName ++ "\\-" ++ k.name ++ " (" ++ sec ++ ")")
  let has := start.1 || !kids.isEmpty
  (has, String.intercalate ",\n" (start.2 ++ kidEntries))

/-- cobra's CommandPath(): the parent's path, a space, and the name. -/
def ctxPath (parent : Option (String × List Cmd)) (c : Cmd) : String :=
  match parent with
  | none => c.name
  | some (pp, _) => pp ++ " " ++ c.name

/-- The manStruct assembly of generateManPage (man.go lines 198-311),
transcribed as the same sequence of field assignments on the zero value.
nowFormatted models time.Now() already formatted as "Jan 2006"; the template
parse-and-execute step at lines 313-326 is modelled separately in the
walker. -/
def buildManStruct (parent : Option (String × List Cmd)) (path : String)
    (c : Cmd) (opts : GenerateManOptions) (nowFormatted : String) : ManStruct :=
  let v := emptyManStruct
  let v := { v with programName := opts.programName, leftFooter := opts.leftFooter,
                    centerHeader := opts.centerHeader }
  let v := { v with manSection := if opts.manSection = "" then "1" else opts.manSection }
  let v := { v with centerFooter :=
    if opts.centerFooter = "" then (opts.date.getD nowFormatted) else opts.centerFooter }
  let dashCommandName := stringsReplace path " " "-"
  let v := { v with name := dashCommandName ++ " \\- " ++ backslashify c.short ++ "\n" }
  let v := if !c.flags.isEmpty then { v with synFlags := printSynFlags c.flags } else v
  let v := { v with useLine := c.useLine, commandPath := path }
  let v := { v with description := if c.long.length = 0 then c.short else c.long }
  let optFlags := if opts.genSeprateInheritedFlags then c.nonInheritedFlags else c.flags
  let v := if !optFlags.isEmpty then
      { v with hasFlags := true, flags := printFlags optFlags }
    else v
  let v := if opts.genSeprateInheritedFlags then
      { v with hasInheritedFlags := true, inheritedFlags := printFlags c.nonInheritedFlags }
    else v
  let envAnnot := lookupAnnot c "man-environment-section"
  let v := if opts.environment ≠ "" ∨ envAnnot ≠ "" then
      { v with hasEnvironment := true,
               environment := if envAnnot ≠ "" then simpleToTroff envAnnot
                              else simpleToTroff opts.environment }
    else v
  let filesAnnot := lookupAnnot c "man-files-section"
  let v := if opts.files ≠ "" ∨ filesAnnot ≠ "" then
      { v with hasFiles := true,
               files := if filesAnnot ≠ "" then simpleToTroff filesAnnot
                        else simpleToTroff opts.files }
    else v
  let bugsAnnot := lookupAnnot c "man-bugs-section"
  let v := if opts.bugs ≠ "" ∨ bugsAnnot ≠ "" then
      { v with hasBugs := true,
               bugs := if bugsAnnot ≠ "" then simpleToTroff bugsAnnot
                       else simpleToTroff opts.bugs }
    else v
  let exAnnot := lookupAnnot c "man-examples-section"
  let v := if c.exampleText ≠ "" ∨ exAnnot ≠ "" then
      { v with hasExamples := true,
               bugs := if exAnnot ≠ "" then simpleToTroff exAnnot
                       else simpleToTroff c.exampleText }
    else v
  let v := if opts.author ≠ "" then
      { v with hasAuthor := true,
               author := opts.author ++
                 "\n.PP\n.SM Page auto-generated by rjohnson/cobra-man and spf13/cobra" }
    else v
  let sa := generateSeeAlso parent c path v.manSection
  { v with hasSeeAlso := sa.1, seeAlsos := sa.2 }

/-- The semantics of the built-in defaultManTemplate (man.go lines 31-66)
under text/template substitution: one literal chunk per template line, with
each field slot and each if-gated section transcribed in order.  Note the
NAME section body is the fixed literal left in the template. -/
def renderDefaultTemplate (m : ManStruct) : String :=
  ".TH \"" ++ m.programName ++ "\" \"" ++ m.manSection ++ "\" \"" ++ m.centerFooter
    ++ "\" \"" ++ m.leftFooter ++ "\" \"" ++ m.centerHeader ++ "\" \n"
  ++ ".nh\n.ad l\n"
  ++ ".SH NAME\n.PP\n"
  ++ "zap\\-publish \\- Publish into MQTT"
  ++ "\n.SH SYNOPSIS\n.PP\n.B " ++ m.commandPath ++ "\n"
  ++ m.synFlags ++ "\n"
  ++ ".SH DESCRIPTION\n.PP\n" ++ m.description
  ++ (if m.hasFlags then "\n.SH OPTIONS\n" ++ m.flags else "")
  ++ (if m.hasInheritedFlags then
        "\n.SH OPTIONS INHERITED FROM PARENT COMMANDS\n" ++ m.inheritedFlags
      else "")
  ++ (if m.hasEnvironment then "\n.SH Environment\n.PP\n" ++ m.environment else "")
  ++ (if m.hasFiles then "\n.SH FILES\n.PP\n" ++ m.files else "")
  ++ (if m.hasBugs then "\n.SH BUGS\n.PP\n" ++ m.bugs else "")
  ++ (if m.hasExamples then "\n.SH EXAMPLES\n.PP\n" ++ m.examples else "")
  ++ (if m.hasAuthor then "\n.SH AUTHOR\n.PP\n" ++ m.author else "")
  ++ (if m.hasSeeAlso then "\n.SH SEE ALSO\n" ++ m.seeAlsos else "")
  ++ "\n.\" This file auto-generated by github.com/rjohnson/cobra-man\n"

/-- The external effects the walker interacts with: os.Create (returning an
error or succeeding), the text/template engine (given the UseTemplate string,
where the empty string selects the built-in default, and the assembled
manStruct; the Except collapses parse and execution errors), and the clock
(time.Now() formatted as "Jan 2006"). -/
structure WorldCfg where
  create : String → Option String
  render : String → ManStruct → Except String String
  nowFormatted : String

/-- Model of Go filepath.Join for the two-argument uses in man.go: empty
components are dropped, otherwise the parts are joined with a slash (dot
cleaning is not modelled; no caller passes dotted paths). -/
def joinPath (dir nm : String) : String :=
  if dir = "" then nm else if nm = "" then dir else dir ++ "/" ++ nm

mutual

/-- GenerateManPages (man.go lines 133-163): defaults ProgramName to the
node's command path when unset (mutating the shared options, threaded here
as state), recurses into the visible children first, then resolves section
and separator, computes the output filename, creates the file and renders
into it.  Returns the threaded options, the files written so far (in
creation order; a file whose render failed is present with empty content,
since os.Create precedes rendering) and the error, if any. -/
def GenerateManPages (cfg : WorldCfg) (parent : Option (String × List Cmd))
    (c : Cmd) (opts : GenerateManOptions) (files : List (String × String)) :
    GenerateManOptions × List (String × String) × Option String :=
  match c with
  | .mk _ _ _ _ _ _ _ _ _ _ ch =>
    let path := ctxPath parent c
    let opts1 := if opts.programName = "" then { opts with programName := path } else opts
    match genChildren cfg path ch ch opts1 files with
    | (opts2, files2, some e) => (opts2, files2, some e)
    | (opts2, files2, none) =>
      let sec := if opts2.manSection ≠ "" then opts2.manSection else "1"
      let sep := if opts2.commandSeparator ≠ "" then opts2.commandSeparator else "-"
      let basename := stringsReplace path " " sep
      let filename := joinPath opts2.directory (basename ++ "." ++ sec)
      match cfg.create filename with
      | some e => (opts2, files2, some e)
      | none =>
        let values := buildManStruct parent path c opts2 cfg.nowFormatted
        match cfg.render opts2.useTemplate values with
        | Except.ok content => (opts2, files2 ++ [(filename, content)], none)
        | Except.error e => (opts2, files2 ++ [(filename, "")], some e)

/-- The loop over cmd.Commands() in GenerateManPages (lines 137-144): skips
children that are unavailable or pure help topics, recurses into the rest,
and aborts on the first error.  allKids is the full child list (the see-also
context each child observes), cs the suffix still to process. -/
def genChildren (cfg : WorldCfg) (ppath : String) (allKids : List Cmd)
    (cs : List Cmd) (opts : GenerateManOptions) (files : List (String × String)) :
    GenerateManOptions × List (String × String) × Option String :=
  match cs with
  | [] => (opts, files, none)
  | k :: rest =>
    if k.available && !k.helpTopic then
      match GenerateManPages cfg (some (ppath, allKids)) k opts files with
      | (opts', files', some e) => (opts', files', some e)
      | (opts', files', none) => genChildren cfg ppath allKids rest opts' files'
    else genChildren cfg ppath allKids rest opts files

end

/-- Section resolution of the walker (man.go lines 145-148): the configured
section, or "1" when unset. -/
def resolvedSection (opts : GenerateManOptions) : String :=
  if opts.manSection ≠ "" then opts.manSection else "1"

/-- Separator resolution of the walker (man.go lines 150-153): the configured
separator, or "-" when unset. -/
def resolvedSeparator (opts : GenerateManOptions) : String :=
  if opts.commandSeparator ≠ "" then opts.commandSeparator else "-"

/-- The output path the walker computes for a node with the given command
path (man.go lines 154-155). -/
def fileNameFor (opts : GenerateManOptions) (path : String) : String :=
  joinPath opts.directory
    (stringsReplace path " " (resolvedSeparator opts) ++ "." ++ resolvedSection opts)

mutual

/-- The command paths of the nodes the walker visits (emits a file for),
in emission order: the visible children's subtrees first, then the node
itself. -/
def visitPaths (ppath : Option String) (c : Cmd) : List String :=
  match c with
  | .mk n _ _ _ _ _ _ _ _ _ ch =>
    let path := match ppath with | none => n | some p => p ++ " " ++ n
    visitPathsList path ch ++ [path]

/-- visitPaths over a child list: unavailable and help-topic children
contribute nothing (their whole subtree is skipped). -/
def visitPathsList (ppath : String) (cs : List Cmd) : List String :=
  match cs with
  | [] => []
  | k :: rest =>
    (if k.available && !k.helpTopic then visitPaths (some ppath) k else [])
      ++ visitPathsList ppath rest

end

/-- The Prop form of Go string comparison, used to state sortedness. -/
def strLeProp (a b : String) : Prop := strLe a b = true

/-- An effect configuration in which every file creation succeeds and the
template engine always renders successfully (with empty output, which is all
the filename- and option-level claims depend on). -/
def cfgTrivial : WorldCfg :=
  ⟨fun _ => none, fun _ _ => Except.ok "", "Jan 2006"⟩

/- ## Basic decomposition lemmas for the string folds -/

theorem foldl_str_append {α : Type} (e : α → String) :
    ∀ (l : List α) (acc : String),
      l.foldl (fun b x => b ++ e x) acc = acc ++ l.foldl (fun b x => b ++ e x) "" := by
  intro l
  induction l with
  | nil => intro acc; simp [List.foldl, String.append_empty]
  | cons x xs ih =>
    intro acc
    simp only [List.foldl]
    rw [ih (acc ++ e x), ih ("" ++ e x), String.empty_append, String.append_assoc]

theorem printSynFlags_cons (f : Flag) (l : List Flag) :
    printSynFlags (f :: l) = synFlagEntry f ++ printSynFlags l := by
  unfold printSynFlags
  simp only [List.foldl]
  rw [foldl_str_append, String.empty_append]

theorem printFlags_cons (f : Flag) (l : List Flag) :
    printFlags (f :: l) = flagEntry f ++ printFlags l := by
  unfold printFlags
  simp only [List.foldl]
  rw [foldl_str_append, String.empty_append]

theorem printSynFlags_append (xs ys : List Flag) :
    printSynFlags (xs ++ ys) = printSynFlags xs ++ printSynFlags ys := by
  induction xs with
  | nil => simp [printSynFlags, String.empty_append]
  | cons x xs ih =>
    rw [List.cons_append, printSynFlags_cons, printSynFlags_cons, ih, String.append_assoc]

theorem printFlags_append (xs ys : List Flag) :
    printFlags (xs ++ ys) = printFlags xs ++ printFlags ys := by
  induction xs with
  | nil => simp [printFlags, String.empty_append]
  | cons x xs ih =>
    rw [List.cons_append, printFlags_cons, printFlags_cons, ih, String.append_assoc]

/-- C3: in every flag collection, a flag whose deprecated marker is non-empty
or whose hidden marker is set contributes nothing to the synopsis rendering
or to the full options rendering (removing it leaves both outputs
unchanged); and a flag whose shorthand-deprecated marker is non-empty
renders, in both passes, exactly as it would with no shorthand at all, i.e.
using only the long --name form. -/
theorem C3_flag_visibility (xs ys : List Flag) (f : Flag) :
    ((0 < f.deprecated.length ∨ f.hidden = true) →
      printSynFlags (xs ++ f :: ys) = printSynFlags (xs ++ ys) ∧
      printFlags (xs ++ f :: ys) = printFlags (xs ++ ys)) ∧
    (0 < f.shorthandDeprecated.length →
      synFlagEntry f = synFlagEntry { f with shorthand := "" } ∧
      flagEntry f = flagEntry { f with shorthand := "" }) := by
  constructor
  · intro h
    have hsyn : synFlagEntry f = "" := by
      unfold synFlagEntry
      exact if_pos h
    have hfull : flagEntry f = "" := by
      unfold flagEntry
      exact if_pos h
    constructor
    · rw [printSynFlags_append, printSynFlags_append, printSynFlags_cons, hsyn,
          String.empty_append]
    · rw [printFlags_append, printFlags_append, printFlags_cons, hfull,
          String.empty_append]
  · intro h
    have hc : ¬ (0 < f.shorthand.length ∧ f.shorthandDeprecated.length = 0) := by
      rintro ⟨-, h0⟩
      omega
    have hc0 : ¬ (0 < ({ f with shorthand := "" } : Flag).shorthand.length ∧
        ({ f with shorthand := "" } : Flag).shorthandDeprecated.length = 0) := by
      rintro ⟨h1, -⟩
      simp at h1
    constructor
    · unfold synFlagEntry
      rw [if_neg hc, if_neg hc0]
    · unfold flagEntry
      rw [if_neg hc, if_neg hc0]

/-- Witness for C3 at the concrete flag
(verbose, shorthand v, deprecated "dep", shorthand-deprecated "sd"). -/
theorem C3_flag_visibility_witness :
    (printSynFlags ([] ++ ⟨"verbose", "v", "", "", "", "dep", "sd", false⟩ :: []) =
       printSynFlags ([] ++ []) ∧
     printFlags ([] ++ ⟨"verbose", "v", "", "", "", "dep", "sd", false⟩ :: []) =
       printFlags ([] ++ [])) ∧
    (synFlagEntry ⟨"verbose", "v", "", "", "", "dep", "sd", false⟩ =
       synFlagEntry { (⟨"verbose", "v", "", "", "", "dep", "sd", false⟩ : Flag) with
                      shorthand := "" } ∧
     flagEntry ⟨"verbose", "v", "", "", "", "dep", "sd", false⟩ =
       flagEntry { (⟨"verbose", "v", "", "", "", "dep", "sd", false⟩ : Flag) with
                   shorthand := "" }) := by
  have h := C3_flag_visibility [] [] ⟨"verbose", "v", "", "", "", "dep", "sd", false⟩
  exact ⟨h.1 (Or.inl (by decide)), h.2 (by decide)⟩

/-- A command carrying a bugs annotation "B" and example text "E"
(no other data), exercising the BUGS/EXAMPLES resolution. -/
def c1cmd : Cmd :=
  .mk "app" "" "" "E" [("man-bugs-section", "B")] [] [] "" true false []

/-- Options with a global bugs default "G". -/
def c1opts : GenerateManOptions :=
  ⟨"app", "", "", none, "", "", "", "G", "", "", "", "", false, ""⟩

/-- C1 (failing): with a bugs annotation "B", a global bugs default "G" and
example text "E" all set, the assembled page model's Bugs field holds the
sanitized examples text "E" — not the sanitized bugs annotation "B" the
claim requires — because the EXAMPLES block at man.go lines 294-302 assigns
values.Bugs; the Examples field is left empty. -/
theorem C1_examples_clobber_bugs :
    (buildManStruct none "app" c1cmd c1opts "Jan 2006").bugs = simpleToTroff "E" ∧
    (buildManStruct none "app" c1cmd c1opts "Jan 2006").bugs ≠ simpleToTroff "B" ∧
    (buildManStruct none "app" c1cmd c1opts "Jan 2006").examples = "" := by
  decide

/-- A command whose only optional-section datum is example text "E". -/
def c2cmd : Cmd := .mk "app" "" "" "E" [] [] [] "" true false []

/-- Default options. -/
def c2opts : GenerateManOptions :=
  ⟨"app", "", "", none, "", "", "", "", "", "", "", "", false, ""⟩

/-- Options requesting a separate inherited-flags section. -/
def c2optsInh : GenerateManOptions :=
  ⟨"app", "", "", none, "", "", "", "", "", "", "", "", true, ""⟩

/-- A command with no flags at all. -/
def c2cmdNoFlags : Cmd := .mk "app" "" "" "" [] [] [] "" true false []

/-- C2 (failing): the presence-iff-non-empty invariant is violated: a command
with example text has HasExamples true while Examples is empty (the examples
resolution writes into Bugs instead, and HasBugs stays false although Bugs is
non-empty); and with GenSeprateInheritedFlags set, HasInheritedFlags is set
true unconditionally even when the command has no flags, leaving
InheritedFlags empty. -/
theorem C2_presence_mismatch :
    ((buildManStruct none "app" c2cmd c2opts "Jan 2006").hasExamples = true ∧
     (buildManStruct none "app" c2cmd c2opts "Jan 2006").examples = "" ∧
     (buildManStruct none "app" c2cmd c2opts "Jan 2006").hasBugs = false ∧
     (buildManStruct none "app" c2cmd c2opts "Jan 2006").bugs ≠ "") ∧
    ((buildManStruct none "app" c2cmdNoFlags c2optsInh "Jan 2006").hasInheritedFlags = true ∧
     (buildManStruct none "app" c2cmdNoFlags c2optsInh "Jan 2006").inheritedFlags = "") := by
  decide

/-- C10: the built-in default template ignores the assembled Name field (its
output is unchanged under any replacement of that field), its output always
contains the fixed literal NAME line for zap-publish, and the assembly step
does compute the Name field as the dash-joined command path, a troff dash
separator, and the escaped short summary. -/
theorem C10_default_template (m : ManStruct) (s : String)
    (parent : Option (String × List Cmd)) (path : String) (c : Cmd)
    (opts : GenerateManOptions) (now : String) :
    renderDefaultTemplate { m with name := s } = renderDefaultTemplate m ∧
    (∃ pre post, renderDefaultTemplate m
        = pre ++ "zap\\-publish \\- Publish into MQTT" ++ post) ∧
    (buildManStruct parent path c opts now).name
      = stringsReplace path " " "-" ++ " \\- " ++ backslashify c.short ++ "\n" := by
  refine ⟨rfl, ?_, ?_⟩
  · refine ⟨".TH \"" ++ m.programName ++ "\" \"" ++ m.manSection ++ "\" \""
      ++ m.centerFooter ++ "\" \"" ++ m.leftFooter ++ "\" \"" ++ m.centerHeader
      ++ "\" \n" ++ ".nh\n.ad l\n" ++ ".SH NAME\n.PP\n",
      "\n.SH SYNOPSIS\n.PP\n.B " ++ m.commandPath ++ "\n"
      ++ m.synFlags ++ "\n"
      ++ ".SH DESCRIPTION\n.PP\n" ++ m.description
      ++ (if m.hasFlags then "\n.SH OPTIONS\n" ++ m.flags else "")
      ++ (if m.hasInheritedFlags then
            "\n.SH OPTIONS INHERITED FROM PARENT COMMANDS\n" ++ m.inheritedFlags
          else "")
      ++ (if m.hasEnvironment then "\n.SH Environment\n.PP\n" ++ m.environment else "")
      ++ (if m.hasFiles then "\n.SH FILES\n.PP\n" ++ m.files else "")
      ++ (if m.hasBugs then "\n.SH BUGS\n.PP\n" ++ m.bugs else "")
      ++ (if m.hasExamples then "\n.SH EXAMPLES\n.PP\n" ++ m.examples else "")
      ++ (if m.hasAuthor then "\n.SH AUTHOR\n.PP\n" ++ m.author else "")
      ++ (if m.hasSeeAlso then "\n.SH SEE ALSO\n" ++ m.seeAlsos else "")
      ++ "\n.\" This file auto-generated by github.com/rjohnson/cobra-man\n", ?_⟩
    simp only [renderDefaultTemplate, String.append_assoc]
  · unfold buildManStruct
    simp only [apply_ite ManStruct.name]
    simp only [ite_self]

/- ## The byName order is total and transitive -/

theorem lexLe_total : ∀ (a b : List Char), lexLe a b = true ∨ lexLe b a = true
  | [], _ => Or.inl rfl
  | _ :: _, [] => Or.inr rfl
  | a :: as, b :: bs => by
    by_cases h1 : a.toNat < b.toNat
    · left
      simp [lexLe, h1]
    · by_cases h2 : b.toNat < a.toNat
      · right
        simp [lexLe, h2]
      · cases lexLe_total as bs with
        | inl h => left; simp [lexLe, h1, h2, h]
        | inr h => right; simp [lexLe, h1, h2, h]

theorem lexLe_trans : ∀ {a b c : List Char},
    lexLe a b = true → lexLe b c = true → lexLe a c = true
  | [], _, _, _, _ => rfl
  | _ :: _, [], _, h1, _ => by simp [lexLe] at h1
  | _ :: _, _ :: _, [], _, h2 => by simp [lexLe] at h2
  | x :: xs, y :: ys, z :: zs, h1, h2 => by
    simp only [lexLe] at h1 h2 ⊢
    split at h1
    case isTrue hxy =>
      split at h2
      case isTrue hyz => rw [if_pos (by omega)]
      case isFalse hyz =>
        split at h2
        case isTrue => exact absurd h2 (by simp)
        case isFalse hzy => rw [if_pos (by omega)]
    case isFalse hxy =>
      split at h1
      case isTrue => exact absurd h1 (by simp)
      case isFalse hyx =>
        split at h2
        case isTrue hyz =>
          by_cases hxz : x.toNat < z.toNat
          · rw [if_pos hxz]
          · exact absurd hyz (by omega)
        case isFalse hyz =>
          split at h2
          case isTrue => exact absurd h2 (by simp)
          case isFalse hzy =>
            rw [if_neg (by omega), if_neg (by omega)]
            exact lexLe_trans h1 h2

instance : IsTotal Cmd leName :=
  ⟨fun a b => lexLe_total a.name.toList b.name.toList⟩

instance : IsTrans Cmd leName :=
  ⟨fun _ _ _ h1 h2 => lexLe_trans h1 h2⟩

theorem byName_sorted (l : List Cmd) : List.Sorted leName (byName l) :=
  List.sorted_insertionSort leName l

theorem byName_perm (l : List Cmd) : (byName l).Perm l :=
  List.perm_insertionSort leName l

/-- C4: the see-also list of a page is, in order, the parent's entry first
(when there is a parent), then the visible non-help-topic siblings other
than the node sorted alphabetically by name, then the visible non-help-topic
children sorted alphabetically by name; the has-see-also boolean is true
exactly when at least one entry exists (with a parent there always is one:
the parent's own entry). -/
theorem C4_seealso (pp : String) (sibs : List Cmd) (c : Cmd) (path sec : String) :
    (∃ sibNames childNames : List String,
      List.Sorted strLeProp sibNames ∧
      List.Sorted strLeProp childNames ∧
      sibNames.Perm ((sibs.filter
        (fun s => s.available && !s.helpTopic && !(s.name == c.name))).map Cmd.name) ∧
      childNames.Perm
        ((c.children.filter (fun k => k.available && !k.helpTopic)).map Cmd.name) ∧
      (generateSeeAlso (some (pp, sibs)) c path sec).2 = String.intercalate ",\n"
        ([".BR " ++ stringsReplace pp " " "\\-" ++ " (" ++ sec ++ ")"]
          ++ sibNames.map (fun n =>
              ".BR " ++ stringsReplace pp " " "\\-" ++ "\\-" ++ n ++ " (" ++ sec ++ ")")
          ++ childNames.map (fun n =>
              ".BR " ++ stringsReplace path " " "\\-" ++ "\\-" ++ n ++ " (" ++ sec ++ ")")) ∧
      (generateSeeAlso (some (pp, sibs)) c path sec).1 = true) ∧
    (∃ childNames : List String,
      List.Sorted strLeProp childNames ∧
      childNames.Perm
        ((c.children.filter (fun k => k.available && !k.helpTopic)).map Cmd.name) ∧
      (generateSeeAlso none c path sec).2 = String.intercalate ",\n"
        (childNames.map (fun n =>
            ".BR " ++ stringsReplace path " " "\\-" ++ "\\-" ++ n ++ " (" ++ sec ++ ")")) ∧
      ((generateSeeAlso none c path sec).1 = true ↔ childNames ≠ [])) := by
  constructor
  · refine ⟨((byName sibs).filter
        (fun s => s.available && !s.helpTopic && !(s.name == c.name))).map Cmd.name,
      ((byName c.children).filter (fun k => k.available && !k.helpTopic)).map Cmd.name,
      ?_, ?_, ?_, ?_, ?_, ?_⟩
    · exact ((byName_sorted sibs).sublist (List.filter_sublist _)).map Cmd.name
        (fun _ _ h => h)
    · exact ((byName_sorted c.children).sublist (List.filter_sublist _)).map Cmd.name
        (fun _ _ h => h)
    · exact (((byName_perm sibs).filter _).map Cmd.name)
    · exact (((byName_perm c.children).filter _).map Cmd.name)
    · simp only [generateSeeAlso, List.map_map]
      rfl
    · simp [generateSeeAlso]
  · refine ⟨((byName c.children).filter (fun k => k.available && !k.helpTopic)).map Cmd.name,
      ?_, ?_, ?_, ?_⟩
    · exact ((byName_sorted c.children).sublist (List.filter_sublist _)).map Cmd.name
        (fun _ _ h => h)
    · exact (((byName_perm c.children).filter _).map Cmd.name)
    · simp only [generateSeeAlso, List.map_map]
      rfl
    · simp [generateSeeAlso]

/- ## Unfolding lemmas for the walker -/

/-- The ProgramName defaulting at entry of GenerateManPages (man.go 134-136),
as a state transformer on the threaded options. -/
def entryOpts (opts : GenerateManOptions) (path : String) : GenerateManOptions :=
  if opts.programName = "" then { opts with programName := path } else opts

/-- The per-node tail of GenerateManPages, after the children loop: compute
the filename, create the file, assemble the model, render. -/
def nodeStep (cfg : WorldCfg) (parent : Option (String × List Cmd)) (c : Cmd)
    (opts2 : GenerateManOptions) (files2 : List (String × String)) :
    GenerateManOptions × List (String × String) × Option String :=
  let path := ctxPath parent c
  let filename := fileNameFor opts2 path
  match cfg.create filename with
  | some e => (opts2, files2, some e)
  | none =>
    match cfg.render opts2.useTemplate (buildManStruct parent path c opts2 cfg.nowFormatted) with
    | Except.ok content => (opts2, files2 ++ [(filename, content)], none)
    | Except.error e => (opts2, files2 ++ [(filename, "")], some e)

theorem walk_unfold (cfg : WorldCfg) (parent : Option (String × List Cmd)) (c : Cmd)
    (opts : GenerateManOptions) (files : List (String × String)) :
    GenerateManPages cfg parent c opts files
      = match genChildren cfg (ctxPath parent c) c.children c.children
          (entryOpts opts (ctxPath parent c)) files with
        | (opts2, files2, some e) => (opts2, files2, some e)
        | (opts2, files2, none) => nodeStep cfg parent c opts2 files2 := by
  cases c
  rfl

theorem genChildren_nil (cfg : WorldCfg) (p : String) (a : List Cmd)
    (opts : GenerateManOptions) (files : List (String × String)) :
    genChildren cfg p a [] opts files = (opts, files, none) := rfl

theorem genChildren_cons (cfg : WorldCfg) (p : String) (a : List Cmd) (k : Cmd)
    (rest : List Cmd) (opts : GenerateManOptions) (files : List (String × String)) :
    genChildren cfg p a (k :: rest) opts files
      = if k.available && !k.helpTopic then
          match GenerateManPages cfg (some (p, a)) k opts files with
          | (o, f, some e) => (o, f, some e)
          | (o, f, none) => genChildren cfg p a rest o f
        else genChildren cfg p a rest opts files := rfl

theorem nodeStep_fst (cfg : WorldCfg) (parent : Option (String × List Cmd)) (c : Cmd)
    (opts2 : GenerateManOptions) (files2 : List (String × String)) :
    (nodeStep cfg parent c opts2 files2).1 = opts2 := by
  simp only [nodeStep]
  split
  · rfl
  · split <;> rfl

theorem nodeStep_files_mono (cfg : WorldCfg) (parent : Option (String × List Cmd))
    (c : Cmd) (opts2 : GenerateManOptions) (files2 : List (String × String)) :
    files2 <+: (nodeStep cfg parent c opts2 files2).2.1 := by
  simp only [nodeStep]
  split
  · exact List.prefix_refl _
  · split
    · exact List.prefix_append _ _
    · exact List.prefix_append _ _

mutual

/-- Files already written are never removed: the file list a walk returns
extends the one it was given. -/
theorem walk_files_mono : ∀ (cfg : WorldCfg) (parent : Option (String × List Cmd))
    (c : Cmd) (opts : GenerateManOptions) (files : List (String × String)),
    files <+: (GenerateManPages cfg parent c opts files).2.1
  | cfg, parent, .mk n sh lo ex an fl nf ul av ht ch, opts, files => by
    rw [walk_unfold]
    simp only [Cmd.children]
    have ih := genChildren_files_mono cfg
      (ctxPath parent (.mk n sh lo ex an fl nf ul av ht ch)) ch ch
      (entryOpts opts (ctxPath parent (.mk n sh lo ex an fl nf ul av ht ch))) files
    rcases hg : genChildren cfg
      (ctxPath parent (.mk n sh lo ex an fl nf ul av ht ch)) ch ch
      (entryOpts opts (ctxPath parent (.mk n sh lo ex an fl nf ul av ht ch))) files
      with ⟨o2, f2, err⟩
    rw [hg] at ih
    cases err with
    | some e => simpa using ih
    | none =>
      have h2 := nodeStep_files_mono cfg parent (.mk n sh lo ex an fl nf ul av ht ch) o2 f2
      exact (by simpa using ih : files <+: f2).trans h2

theorem genChildren_files_mono : ∀ (cfg : WorldCfg) (p : String) (a : List Cmd)
    (cs : List Cmd) (opts : GenerateManOptions) (files : List (String × String)),
    files <+: (genChildren cfg p a cs opts files).2.1
  | cfg, p, a, [], opts, files => by
    rw [genChildren_nil]
  | cfg, p, a, k :: rest, opts, files => by
    rw [genChildren_cons]
    by_cases hv : k.available && !k.helpTopic
    · rw [if_pos hv]
      have ih1 := walk_files_mono cfg (some (p, a)) k opts files
      rcases hg : GenerateManPages cfg (some (p, a)) k opts files with ⟨o, f, err⟩
      rw [hg] at ih1
      cases err with
      | some e => simpa using ih1
      | none =>
        have ih2 := genChildren_files_mono cfg p a rest o f
        exact (by simpa using ih1 : files <+: f).trans ih2
    · rw [if_neg hv]
      exact genChildren_files_mono cfg p a rest opts files

end

/-- Agreement on the three option fields that determine output filenames. -/
def optsAgree (a b : GenerateManOptions) : Prop :=
  a.directory = b.directory ∧ a.manSection = b.manSection ∧
    a.commandSeparator = b.commandSeparator

theorem optsAgree_refl (a : GenerateManOptions) : optsAgree a a := ⟨rfl, rfl, rfl⟩

theorem optsAgree_trans {a b c : GenerateManOptions}
    (h1 : optsAgree a b) (h2 : optsAgree b c) : optsAgree a c :=
  ⟨h1.1.trans h2.1, h1.2.1.trans h2.2.1, h1.2.2.trans h2.2.2⟩

theorem entryOpts_agree (opts : GenerateManOptions) (p : String) :
    optsAgree (entryOpts opts p) opts := by
  unfold entryOpts
  split
  · exact ⟨rfl, rfl, rfl⟩
  · exact optsAgree_refl opts

theorem fileNameFor_congr {a b : GenerateManOptions} (h : optsAgree a b) :
    fileNameFor a = fileNameFor b := by
  funext x
  simp only [fileNameFor, resolvedSection, resolvedSeparator, h.1, h.2.1, h.2.2]

mutual

/-- The walker only ever touches the ProgramName field of the threaded
options: directory, section and separator are preserved. -/
theorem walk_opts_agree : ∀ (cfg : WorldCfg) (parent : Option (String × List Cmd))
    (c : Cmd) (opts : GenerateManOptions) (files : List (String × String)),
    optsAgree (GenerateManPages cfg parent c opts files).1 opts
  | cfg, parent, .mk n sh lo ex an fl nf ul av ht ch, opts, files => by
    rw [walk_unfold]
    simp only [Cmd.children]
    have ih := genChildren_opts_agree cfg
      (ctxPath parent (.mk n sh lo ex an fl nf ul av ht ch)) ch ch
      (entryOpts opts (ctxPath parent (.mk n sh lo ex an fl nf ul av ht ch))) files
    rcases hg : genChildren cfg
      (ctxPath parent (.mk n sh lo ex an fl nf ul av ht ch)) ch ch
      (entryOpts opts (ctxPath parent (.mk n sh lo ex an fl nf ul av ht ch))) files
      with ⟨o2, f2, err⟩
    rw [hg] at ih
    have ih2 : optsAgree o2 opts :=
      optsAgree_trans (by simpa using ih) (entryOpts_agree opts _)
    cases err with
    | some e => simpa using ih2
    | none => simpa [nodeStep_fst] using ih2

theorem genChildren_opts_agree : ∀ (cfg : WorldCfg) (p : String) (a : List Cmd)
    (cs : List Cmd) (opts : GenerateManOptions) (files : List (String × String)),
    optsAgree (genChildren cfg p a cs opts files).1 opts
  | cfg, p, a, [], opts, files => by
    rw [genChildren_nil]
    exact optsAgree_refl opts
  | cfg, p, a, k :: rest, opts, files => by
    rw [genChildren_cons]
    by_cases hv : k.available && !k.helpTopic
    · rw [if_pos hv]
      have ih1 := walk_opts_agree cfg (some (p, a)) k opts files
      rcases hg : GenerateManPages cfg (some (p, a)) k opts files with ⟨o, f, err⟩
      rw [hg] at ih1
      cases err with
      | some e => simpa using ih1
      | none =>
        have ih2 := genChildren_opts_agree cfg p a rest o f
        exact optsAgree_trans ih2 (by simpa using ih1)
    · rw [if_neg hv]
      exact genChildren_opts_agree cfg p a rest opts files

end

theorem entryOpts_of_ne (opts : GenerateManOptions) (p : String)
    (h : opts.programName ≠ "") : entryOpts opts p = opts := by
  unfold entryOpts
  rw [if_neg h]

mutual

/-- With a non-empty ProgramName the walker leaves the options entirely
unchanged. -/
theorem walk_opts_const : ∀ (cfg : WorldCfg) (parent : Option (String × List Cmd))
    (c : Cmd) (opts : GenerateManOptions) (files : List (String × String)),
    opts.programName ≠ "" → (GenerateManPages cfg parent c opts files).1 = opts
  | cfg, parent, .mk n sh lo ex an fl nf ul av ht ch, opts, files, h => by
    rw [walk_unfold]
    simp only [Cmd.children]
    rw [entryOpts_of_ne opts _ h]
    have ih := genChildren_opts_const cfg
      (ctxPath parent (.mk n sh lo ex an fl nf ul av ht ch)) ch ch opts files h
    rcases hg : genChildren cfg
      (ctxPath parent (.mk n sh lo ex an fl nf ul av ht ch)) ch ch opts files
      with ⟨o2, f2, err⟩
    rw [hg] at ih
    cases err with
    | some e => simpa using ih
    | none => simpa [nodeStep_fst] using ih

theorem genChildren_opts_const : ∀ (cfg : WorldCfg) (p : String) (a : List Cmd)
    (cs : List Cmd) (opts : GenerateManOptions) (files : List (String × String)),
    opts.programName ≠ "" → (genChildren cfg p a cs opts files).1 = opts
  | cfg, p, a, [], opts, files, _ => by
    rw [genChildren_nil]
  | cfg, p, a, k :: rest, opts, files, h => by
    rw [genChildren_cons]
    by_cases hv : k.available && !k.helpTopic
    · rw [if_pos hv]
      have ih1 := walk_opts_const cfg (some (p, a)) k opts files h
      rcases hg : GenerateManPages cfg (some (p, a)) k opts files with ⟨o, f, err⟩
      rw [hg] at ih1
      cases err with
      | some e => simpa using ih1
      | none =>
        have ho : o = opts := by simpa using ih1
        subst ho
        exact genChildren_opts_const cfg p a rest o f h
    · rw [if_neg hv]
      exact genChildren_opts_const cfg p a rest opts files h

end

theorem visitPaths_mk (parent : Option (String × List Cmd))
    (n sh lo ex : String) (an : List (String × String)) (fl nf : List Flag)
    (ul : String) (av ht : Bool) (ch : List Cmd) :
    visitPaths (Option.map Prod.fst parent) (.mk n sh lo ex an fl nf ul av ht ch)
      = visitPathsList (ctxPath parent (.mk n sh lo ex an fl nf ul av ht ch)) ch
        ++ [ctxPath parent (.mk n sh lo ex an fl nf ul av ht ch)] := by
  rcases parent with _ | ⟨p, l⟩ <;> rfl

mutual

/-- When every file creation and every template rendering succeeds, the
walker returns no error and appends exactly one file per visited node, whose
name is the node's command path put through the filename scheme of the
options the walk was started with. -/
theorem walk_ok_names : ∀ (cfg : WorldCfg),
    (∀ s, cfg.create s = none) →
    (∀ t m, ∃ out, cfg.render t m = Except.ok out) →
    ∀ (parent : Option (String × List Cmd)) (c : Cmd) (opts : GenerateManOptions)
      (files : List (String × String)),
    ((GenerateManPages cfg parent c opts files).2.1).map Prod.fst
        = files.map Prod.fst
          ++ (visitPaths (Option.map Prod.fst parent) c).map (fileNameFor opts)
      ∧ (GenerateManPages cfg parent c opts files).2.2 = none
  | cfg, hC, hR, parent, .mk n sh lo ex an fl nf ul av ht ch, opts, files => by
    rw [walk_unfold]
    simp only [Cmd.children]
    have ihA := genChildren_opts_agree cfg
      (ctxPath parent (.mk n sh lo ex an fl nf ul av ht ch)) ch ch
      (entryOpts opts (ctxPath parent (.mk n sh lo ex an fl nf ul av ht ch))) files
    have ih := genChildren_ok_names cfg hC hR
      (ctxPath parent (.mk n sh lo ex an fl nf ul av ht ch)) ch ch
      (entryOpts opts (ctxPath parent (.mk n sh lo ex an fl nf ul av ht ch))) files
    rcases hg : genChildren cfg
      (ctxPath parent (.mk n sh lo ex an fl nf ul av ht ch)) ch ch
      (entryOpts opts (ctxPath parent (.mk n sh lo ex an fl nf ul av ht ch))) files
      with ⟨o2, f2, err⟩
    rw [hg] at ih ihA
    obtain ⟨ihn, ihe⟩ := ih
    simp only at ihn ihe ihA
    subst ihe
    have hAgree : optsAgree o2 opts :=
      optsAgree_trans ihA (entryOpts_agree opts _)
    simp only [nodeStep, hC]
    obtain ⟨out, hout⟩ := hR o2.useTemplate
      (buildManStruct parent (ctxPath parent (.mk n sh lo ex an fl nf ul av ht ch))
        (.mk n sh lo ex an fl nf ul av ht ch) o2 cfg.nowFormatted)
    rw [hout]
    refine ⟨?_, rfl⟩
    rw [List.map_append, ihn, fileNameFor_congr (entryOpts_agree opts _),
      visitPaths_mk, List.map_append, fileNameFor_congr hAgree]
    simp [List.append_assoc]

theorem genChildren_ok_names : ∀ (cfg : WorldCfg),
    (∀ s, cfg.create s = none) →
    (∀ t m, ∃ out, cfg.render t m = Except.ok out) →
    ∀ (p : String) (a : List Cmd) (cs : List Cmd) (opts : GenerateManOptions)
      (files : List (String × String)),
    ((genChildren cfg p a cs opts files).2.1).map Prod.fst
        = files.map Prod.fst ++ (visitPathsList p cs).map (fileNameFor opts)
      ∧ (genChildren cfg p a cs opts files).2.2 = none
  | cfg, hC, hR, p, a, [], opts, files => by
    rw [genChildren_nil]
    simp [visitPathsList]
  | cfg, hC, hR, p, a, k :: rest, opts, files => by
    rw [genChildren_cons]
    by_cases hv : k.available && !k.helpTopic
    · rw [if_pos hv]
      have ih1 := walk_ok_names cfg hC hR (some (p, a)) k opts files
      have ag1 := walk_opts_agree cfg (some (p, a)) k opts files
      rcases hg : GenerateManPages cfg (some (p, a)) k opts files with ⟨o, f, err⟩
      rw [hg] at ih1 ag1
      obtain ⟨ih1n, ih1e⟩ := ih1
      simp only at ih1n ih1e ag1
      subst ih1e
      have ih2 := genChildren_ok_names cfg hC hR p a rest o f
      obtain ⟨ih2n, ih2e⟩ := ih2
      refine ⟨?_, ih2e⟩
      rw [ih2n, fileNameFor_congr ag1, ih1n]
      simp only [visitPathsList, hv, if_pos, Option.map_some, List.map_append,
        List.append_assoc]
      rfl
    · rw [if_neg hv]
      have ih := genChildren_ok_names cfg hC hR p a rest opts files
      obtain ⟨ihn, ihe⟩ := ih
      refine ⟨?_, ihe⟩
      rw [ihn]
      have hvp : (if k.available && !k.helpTopic then visitPaths (some p) k else []) = [] := by
        rw [if_neg hv]
      simp only [visitPathsList, hvp, List.nil_append]

end

theorem visitPathsList_append (p : String) (xs ys : List Cmd) :
    visitPathsList p (xs ++ ys) = visitPathsList p xs ++ visitPathsList p ys := by
  induction xs with
  | nil => simp [visitPathsList]
  | cons k rest ih =>
    simp only [List.cons_append, visitPathsList]
    rw [show rest.append ys = rest ++ ys from rfl, ih, List.append_assoc]

theorem visitPathsList_invisible (p : String) (k : Cmd) (ys : List Cmd)
    (hk : k.available = false ∨ k.helpTopic = true) :
    visitPathsList p (k :: ys) = visitPathsList p ys := by
  have hv : (k.available && !k.helpTopic) = false := by
    rcases hk with h | h <;> simp [h]
  simp only [visitPathsList, hv, Bool.false_eq_true, if_false, List.nil_append]

theorem visitPathsList_flatMap (p : String) (cs : List Cmd) :
    visitPathsList p cs
      = (cs.filter (fun k => k.available && !k.helpTopic)).flatMap
          (visitPaths (some p)) := by
  induction cs with
  | nil => rfl
  | cons k rest ih =>
    by_cases hv : k.available && !k.helpTopic
    · simp [visitPathsList, hv, List.filter_cons, ih]
    · have hv' : (k.available && !k.helpTopic) = false := by
        simpa using hv
      simp [visitPathsList, hv', List.filter_cons, ih]

theorem flatMap_congr {α β : Type} (l : List α) (f g : α → List β)
    (h : ∀ x ∈ l, f x = g x) : l.flatMap f = l.flatMap g := by
  induction l with
  | nil => rfl
  | cons x rest ih =>
    simp only [List.flatMap_cons]
    rw [h x (List.mem_cons_self x rest), ih (fun y hy => h y (List.mem_cons_of_mem x hy))]

/- ## Concrete inputs used by the counterexamples and witnesses -/

/-- A visible leaf command with the given name and no other data. -/
def exLeaf (n : String) : Cmd := .mk n "" "" "" [] [] [] "" true false []

/-- A two-level tree: root app with the single visible child sub. -/
def exApp : Cmd := .mk "app" "" "" "" [] [] [] "" true false [exLeaf "sub"]

/-- Options left entirely at their zero values. -/
def exOpts : GenerateManOptions :=
  ⟨"", "", "", none, "", "", "", "", "", "", "", "", false, ""⟩

/-- The root app marked unavailable, still with a visible child. -/
def exUnavailRoot : Cmd := .mk "app" "" "" "" [] [] [] "" false false [exLeaf "sub"]

/-- C5 (counterexample): on the two-level tree app / app sub, the walker
creates app-sub.1 first and app.1 last, so the parent's page file is not
created before its descendant's, contradicting the claimed pre-order. -/
theorem C5_preorder_cex :
    ((GenerateManPages cfgTrivial none exApp exOpts []).2.1).map Prod.fst
      = ["app-sub.1", "app.1"] ∧
    ¬ List.indexOf "app.1"
        (((GenerateManPages cfgTrivial none exApp exOpts []).2.1).map Prod.fst)
      < List.indexOf "app-sub.1"
        (((GenerateManPages cfgTrivial none exApp exOpts []).2.1).map Prod.fst) := by
  decide

/-- C5 (amended): emission is post-order: on a failure-free run, the file
list a node's walk emits is the concatenation of the emissions of its
visible non-help-topic children (in order), followed by the node's own file;
so a parent's page file is created after the page files of all of its
visited descendants. -/
theorem C5_postorder (cfg : WorldCfg)
    (hC : ∀ s, cfg.create s = none)
    (hR : ∀ t m, ∃ out, cfg.render t m = Except.ok out)
    (parent : Option (String × List Cmd)) (c : Cmd) (opts : GenerateManOptions) :
    ((GenerateManPages cfg parent c opts []).2.1).map Prod.fst
      = (c.children.filter (fun k => k.available && !k.helpTopic)).flatMap
          (fun k => ((GenerateManPages cfg (some (ctxPath parent c, c.children)) k opts []).2.1).map
            Prod.fst)
        ++ [fileNameFor opts (ctxPath parent c)] := by
  obtain ⟨hn, -⟩ := walk_ok_names cfg hC hR parent c opts []
  rw [hn]
  cases c with
  | mk n sh lo ex an fl nf ul av ht ch =>
    rw [visitPaths_mk]
    simp only [List.map_append, List.map_nil, List.nil_append, Cmd.children]
    congr 1
    rw [visitPathsList_flatMap, List.map_flatMap]
    refine flatMap_congr _ _ _ (fun k _ => ?_)
    obtain ⟨hk, -⟩ := walk_ok_names cfg hC hR
      (some (ctxPath parent (.mk n sh lo ex an fl nf ul av ht ch), ch)) k opts []
    rw [hk]
    simp

/-- Witness for C5 at the concrete two-level tree under the failure-free
configuration. -/
theorem C5_postorder_witness :
    ((GenerateManPages cfgTrivial none exApp exOpts []).2.1).map Prod.fst
      = (exApp.children.filter (fun k => k.available && !k.helpTopic)).flatMap
          (fun k => ((GenerateManPages cfgTrivial
              (some (ctxPath none exApp, exApp.children)) k exOpts []).2.1).map Prod.fst)
        ++ [fileNameFor exOpts (ctxPath none exApp)] :=
  C5_postorder cfgTrivial (fun _ => rfl) (fun _ _ => ⟨"", rfl⟩) none exApp exOpts

/-- C6 (counterexample): the skip check is only applied to children: invoking
generation on a root that is itself flagged unavailable still emits the
root's file and still visits its descendants. -/
theorem C6_skip_cex :
    ((GenerateManPages cfgTrivial none exUnavailRoot exOpts []).2.1).map Prod.fst
      = ["app-sub.1", "app.1"] ∧
    (GenerateManPages cfgTrivial none exUnavailRoot exOpts []).2.1 ≠ [] := by
  decide

/-- C6 (amended): during recursion a child flagged unavailable or help-topic
is skipped together with its entire subtree (removing such a child changes
nothing in the emitted file list); but the node generation is invoked on is
itself always emitted, even when unavailable (see the counterexample). -/
theorem C6_skip_subtree (cfg : WorldCfg)
    (hC : ∀ s, cfg.create s = none)
    (hR : ∀ t m, ∃ out, cfg.render t m = Except.ok out)
    (parent : Option (String × List Cmd))
    (n sh lo ex : String) (an : List (String × String)) (fl nf : List Flag)
    (ul : String) (av ht : Bool) (xs ys : List Cmd) (k : Cmd)
    (opts : GenerateManOptions)
    (hk : k.available = false ∨ k.helpTopic = true) :
    ((GenerateManPages cfg parent (.mk n sh lo ex an fl nf ul av ht (xs ++ k :: ys))
        opts []).2.1).map Prod.fst
      = ((GenerateManPages cfg parent (.mk n sh lo ex an fl nf ul av ht (xs ++ ys))
          opts []).2.1).map Prod.fst := by
  obtain ⟨h1, -⟩ := walk_ok_names cfg hC hR parent
    (.mk n sh lo ex an fl nf ul av ht (xs ++ k :: ys)) opts []
  obtain ⟨h2, -⟩ := walk_ok_names cfg hC hR parent
    (.mk n sh lo ex an fl nf ul av ht (xs ++ ys)) opts []
  rw [h1, h2, visitPaths_mk, visitPaths_mk, visitPathsList_append, visitPathsList_append,
    visitPathsList_invisible _ k ys hk]
  rfl

/-- Witness for C6: dropping a concrete unavailable child (and its subtree)
from the root's child list leaves the emitted files unchanged. -/
theorem C6_skip_subtree_witness :
    ((GenerateManPages cfgTrivial none
        (.mk "app" "" "" "" [] [] [] "" true false
          ([] ++ (.mk "secret" "" "" "" [] [] [] "" false false [exLeaf "inner"]) ::
            [exLeaf "sub"])) exOpts []).2.1).map Prod.fst
      = ((GenerateManPages cfgTrivial none
          (.mk "app" "" "" "" [] [] [] "" true false ([] ++ [exLeaf "sub"]))
          exOpts []).2.1).map Prod.fst :=
  C6_skip_subtree cfgTrivial (fun _ => rfl) (fun _ _ => ⟨"", rfl⟩) none
    "app" "" "" "" [] [] [] "" true false [] [exLeaf "sub"]
    (.mk "secret" "" "" "" [] [] [] "" false false [exLeaf "inner"]) exOpts
    (Or.inl rfl)

/-- C7: on a failure-free run, the emitted file paths are exactly, node by
visited node in emission order, the output directory joined with the node's
space-joined command path with every space replaced by the configured
separator (default "-"), followed by a dot and the resolved section (the
configured section, or "1" when unset). -/
theorem C7_filenames (cfg : WorldCfg)
    (hC : ∀ s, cfg.create s = none)
    (hR : ∀ t m, ∃ out, cfg.render t m = Except.ok out)
    (parent : Option (String × List Cmd)) (c : Cmd) (opts : GenerateManOptions) :
    ((GenerateManPages cfg parent c opts []).2.1).map Prod.fst
      = (visitPaths (Option.map Prod.fst parent) c).map (fun p =>
          joinPath opts.directory
            (stringsReplace p " "
                (if opts.commandSeparator ≠ "" then opts.commandSeparator else "-")
              ++ "." ++ (if opts.manSection ≠ "" then opts.manSection else "1"))) := by
  obtain ⟨hn, -⟩ := walk_ok_names cfg hC hR parent c opts []
  rw [hn]
  simp [fileNameFor, resolvedSection, resolvedSeparator]

/-- Witness for C7 at the concrete two-level tree under the failure-free
configuration. -/
theorem C7_filenames_witness :
    ((GenerateManPages cfgTrivial none exApp exOpts []).2.1).map Prod.fst
      = (visitPaths (Option.map Prod.fst (none : Option (String × List Cmd))) exApp).map
          (fun p => joinPath exOpts.directory
            (stringsReplace p " "
                (if exOpts.commandSeparator ≠ "" then exOpts.commandSeparator else "-")
              ++ "." ++ (if exOpts.manSection ≠ "" then exOpts.manSection else "1"))) :=
  C7_filenames cfgTrivial (fun _ => rfl) (fun _ _ => ⟨"", rfl⟩) none exApp exOpts

/-- C8 (counterexample): with ProgramName initially empty, the top-level call
overwrites it (man.go lines 134-136 assign through the shared options
pointer), so the options are not the same after the call as before it. -/
theorem C8_mutation_cex :
    (GenerateManPages cfgTrivial none exApp exOpts []).1.programName = "app" ∧
    exOpts.programName = "" ∧
    (GenerateManPages cfgTrivial none exApp exOpts []).1 ≠ exOpts := by
  decide

/-- C8 (amended): every field of the options except ProgramName is unchanged
by the generation call; ProgramName itself is unchanged when initially
non-empty, and otherwise is overwritten with the invoked node's command path
(for the top-level call, the root's path), provided that path is non-empty. -/
theorem C8_opts_mutation (cfg : WorldCfg) (parent : Option (String × List Cmd))
    (c : Cmd) (opts : GenerateManOptions) (files : List (String × String))
    (h : ctxPath parent c ≠ "") :
    (GenerateManPages cfg parent c opts files).1
      = if opts.programName = ""
        then { opts with programName := ctxPath parent c }
        else opts := by
  rw [walk_unfold]
  have hE : (entryOpts opts (ctxPath parent c)).programName ≠ "" := by
    unfold entryOpts
    split
    · exact h
    · next hne => exact hne
  have hcc := genChildren_opts_const cfg (ctxPath parent c) c.children c.children
    (entryOpts opts (ctxPath parent c)) files hE
  rcases hg : genChildren cfg (ctxPath parent c) c.children c.children
    (entryOpts opts (ctxPath parent c)) files with ⟨o2, f2, err⟩
  rw [hg] at hcc
  have ho2 : o2 = entryOpts opts (ctxPath parent c) := by simpa using hcc
  cases err with
  | some e =>
    simp only []
    rw [ho2]
    rfl
  | none =>
    simp only [nodeStep_fst]
    rw [ho2]
    rfl

/-- Witness for C8 on the concrete two-level tree (whose root path app is
non-empty). -/
theorem C8_opts_mutation_witness :
    (GenerateManPages cfgTrivial none exApp exOpts []).1
      = if exOpts.programName = ""
        then { exOpts with programName := ctxPath none exApp }
        else exOpts :=
  C8_opts_mutation cfgTrivial none exApp exOpts [] (by decide)

/-- Running the children loop over a successfully processed prefix, then the
rest: the loop is a left fold with early exit on the first error. -/
theorem genChildren_run_append : ∀ (cfg : WorldCfg) (p : String) (a : List Cmd)
    (cs1 rest : List Cmd) (opts : GenerateManOptions)
    (files : List (String × String)) (opts1 : GenerateManOptions)
    (files1 : List (String × String)),
    genChildren cfg p a cs1 opts files = (opts1, files1, none) →
    genChildren cfg p a (cs1 ++ rest) opts files = genChildren cfg p a rest opts1 files1
  | cfg, p, a, [], rest, opts, files, opts1, files1, h => by
    rw [genChildren_nil] at h
    injection h with h1 h'
    injection h' with h2 h3
    subst h1
    subst h2
    rfl
  | cfg, p, a, k :: cs1, rest, opts, files, opts1, files1, h => by
    rw [genChildren_cons] at h
    rw [List.cons_append, genChildren_cons]
    by_cases hv : k.available && !k.helpTopic
    · rw [if_pos hv] at h ⊢
      rcases hg : GenerateManPages cfg (some (p, a)) k opts files with ⟨o, f, err⟩
      rw [hg] at h
      cases err with
      | some e =>
        exact absurd (congrArg (fun t => t.2.2) h) (by simp)
      | none =>
        exact genChildren_run_append cfg p a cs1 rest o f opts1 files1 h
    · rw [if_neg hv] at h ⊢
      exact genChildren_run_append cfg p a cs1 rest opts files opts1 files1 h

/-- C9: if, after a successfully processed prefix of the children, walking
the next visible child fails with some error (a file that cannot be created,
or a template that fails to parse or render somewhere in that subtree), then
the whole children loop returns exactly that error and the failure state:
the remaining siblings are never processed, the parent node's own file is
not created, and every file written before the failure is left in place (the
incoming file list is a prefix of the failure state's file list). -/
theorem C9_error_abort (cfg : WorldCfg) (ppath : String) (cs1 cs2 : List Cmd)
    (k : Cmd) (opts opts1 opts2 : GenerateManOptions)
    (files files1 files2 : List (String × String)) (e : String)
    (hvis : (k.available && !k.helpTopic) = true)
    (h1 : genChildren cfg ppath (cs1 ++ k :: cs2) cs1 opts files = (opts1, files1, none))
    (h2 : GenerateManPages cfg (some (ppath, cs1 ++ k :: cs2)) k opts1 files1
            = (opts2, files2, some e)) :
    genChildren cfg ppath (cs1 ++ k :: cs2) (cs1 ++ k :: cs2) opts files
        = (opts2, files2, some e)
    ∧ files <+: files2
    ∧ ∀ (parent : Option (String × List Cmd)) (n sh lo ex : String)
        (an : List (String × String)) (fl nf : List Flag) (ul : String)
        (av ht : Bool),
        ctxPath parent (.mk n sh lo ex an fl nf ul av ht (cs1 ++ k :: cs2)) = ppath →
        opts.programName ≠ "" →
        GenerateManPages cfg parent (.mk n sh lo ex an fl nf ul av ht (cs1 ++ k :: cs2))
            opts files
          = (opts2, files2, some e) := by
  have hfull : genChildren cfg ppath (cs1 ++ k :: cs2) (cs1 ++ k :: cs2) opts files
      = (opts2, files2, some e) := by
    rw [genChildren_run_append cfg ppath (cs1 ++ k :: cs2) cs1 (k :: cs2) opts files
        opts1 files1 h1,
      genChildren_cons, if_pos hvis, h2]
  refine ⟨hfull, ?_, ?_⟩
  · have m1 := genChildren_files_mono cfg ppath (cs1 ++ k :: cs2) cs1 opts files
    rw [h1] at m1
    have m2 := walk_files_mono cfg (some (ppath, cs1 ++ k :: cs2)) k opts1 files1
    rw [h2] at m2
    exact (show files <+: files1 by simpa using m1).trans (by simpa using m2)
  · intro parent n sh lo ex an fl nf ul av ht hpath hpn
    rw [walk_unfold]
    simp only [Cmd.children]
    rw [hpath, entryOpts_of_ne opts ppath hpn, hfull]

/-- An effect configuration whose file creation fails exactly on app-b.1. -/
def c9cfg : WorldCfg :=
  ⟨fun s => if s = "app-b.1" then some "boom" else none,
   fun _ _ => Except.ok "", "Jan 2006"⟩

/-- Options with a non-empty program name. -/
def c9opts : GenerateManOptions :=
  ⟨"app", "", "", none, "", "", "", "", "", "", "", "", false, ""⟩

/-- Witness for C9: with children a, b, c under path app and creation failing
on app-b.1, the loop stops at b with the error boom, keeps a's file, and
never processes c. -/
theorem C9_error_abort_witness :
    genChildren c9cfg "app" ([exLeaf "a"] ++ exLeaf "b" :: [exLeaf "c"])
        ([exLeaf "a"] ++ exLeaf "b" :: [exLeaf "c"]) c9opts []
      = (c9opts, [("app-a.1", "")], some "boom")
    ∧ ([] : List (String × String)) <+: [("app-a.1", "")] := by
  have h := C9_error_abort c9cfg "app" [exLeaf "a"] [exLeaf "c"] (exLeaf "b")
    c9opts c9opts c9opts [] [("app-a.1", "")] [("app-a.1", "")] "boom"
    (by decide) (by decide) (by decide)
  exact ⟨h.1, h.2.1⟩

end Cobraman
